import Mathlib

/-!
# Verification of `scripts/string_to_hex_converter.py`

A shallow embedding of the repository's single utility: `string_to_hex`,
which converts a text string to its hexadecimal byte representation,
optionally upper-cased and right-padded with `'0'` characters.

Python strings are modelled as `List Char` (sequences of Unicode scalar
values), bytes as `Nat` values below 256, and the integer `padding`
argument as `Int` (the CLI parses it with `type=int`, so it may be
negative).
-/

/-- UTF-8 encoding of a single Unicode scalar value, as a list of bytes.
Models Python's `str.encode()` (default UTF-8) acting on one character. -/
def utf8EncodeChar (c : Char) : List Nat :=
  let n := c.toNat
  if n < 0x80 then [n]
  else if n < 0x800 then [0xC0 + n / 0x40, 0x80 + n % 0x40]
  else if n < 0x10000 then
    [0xE0 + n / 0x1000, 0x80 + (n / 0x40) % 0x40, 0x80 + n % 0x40]
  else
    [0xF0 + n / 0x40000, 0x80 + (n / 0x1000) % 0x40,
     0x80 + (n / 0x40) % 0x40, 0x80 + n % 0x40]

/-- UTF-8 encoding of a string: `input_string.encode()` on line 31. -/
def utf8Encode (s : List Char) : List Nat :=
  s.flatMap utf8EncodeChar

/-- The lowercase hexadecimal digit for a nibble value `n < 16`:
`0`–`9` then `a`–`f`.  This is the digit alphabet used by Python's
`bytes.hex()`. -/
def hexDigit (n : Nat) : Char :=
  if n < 10 then Char.ofNat (48 + n) else Char.ofNat (87 + n)

/-- The two lowercase hex digits of one byte, high nibble first. -/
def byteToHex (b : Nat) : List Char :=
  [hexDigit (b / 16), hexDigit (b % 16)]

/-- Lowercase hex encoding of a byte sequence: `.hex()` on line 31. -/
def hexEncode (bs : List Nat) : List Char :=
  bs.flatMap byteToHex

/-- Python's `str.upper()` restricted to ASCII, which is exact on the
hex-digit alphabet this program produces. -/
def pyToUpper (c : Char) : Char :=
  if 'a' ≤ c ∧ c ≤ 'z' then Char.ofNat (c.toNat - 32) else c

/-- The hex string after the optional case conversion of lines 34–35. -/
def hexCase (uppercase : Bool) (bs : List Nat) : List Char :=
  if uppercase then (hexEncode bs).map pyToUpper else hexEncode bs

/-- `string_to_hex(input_string, padding=40, uppercase=True)`
(lines 18–40 of `scripts/string_to_hex_converter.py`):

* line 31: `hex_string = input_string.encode().hex()`
* lines 34–35: `if uppercase: hex_string = hex_string.upper()`
* line 38: `padded_hex = f"{hex_string}{'0' * (padding - len(hex_string))}"`

Python's `'0' * n` is the empty string when `n ≤ 0`, which the
`Int.toNat` coercion captures. -/
def string_to_hex (input_string : List Char) (padding : Int)
    (uppercase : Bool) : List Char :=
  let hex_string := hexCase uppercase (utf8Encode input_string)
  hex_string ++ List.replicate (padding - hex_string.length).toNat '0'

/-- The value of the f-string expression printed by the `python` output
format (line 93): `f'{"<string>".encode().hex().upper():0<padding>}'`.
Python's `format(s, "0" ++ toString w)` on a string left-aligns and fills
with `'0'` on the right up to width `w`; the snippet always applies
`.upper()`, regardless of the case flag. -/
def pySnippetValue (s : List Char) (w : Nat) : List Char :=
  let hex := (hexEncode (utf8Encode s)).map pyToUpper
  hex ++ List.replicate (w - hex.length) '0'

/-- Value of one hex-digit character, accepting both cases; used to state
the round-trip claim. -/
def hexDigitVal (c : Char) : Option Nat :=
  if '0' ≤ c ∧ c ≤ '9' then some (c.toNat - 48)
  else if 'a' ≤ c ∧ c ≤ 'f' then some (c.toNat - 87)
  else if 'A' ≤ c ∧ c ≤ 'F' then some (c.toNat - 55)
  else none

/-- Decode a hex string (two digits per byte) back into bytes. -/
def hexDecode : List Char → Option (List Nat)
  | [] => some []
  | [_] => none
  | c1 :: c2 :: rest => do
      let h ← hexDigitVal c1
      let l ← hexDigitVal c2
      let bs ← hexDecode rest
      pure ((16 * h + l) :: bs)

/-- Continuation of a two-byte UTF-8 sequence whose lead byte is `b`. -/
def utf8DecodeTail1 (b : Nat) : List Nat → Option (Char × List Nat)
  | b1 :: rest =>
    if 0x80 ≤ b1 ∧ b1 < 0xC0 then
      if 0x80 ≤ (b - 0xC0) * 0x40 + (b1 - 0x80) then
        some (Char.ofNat ((b - 0xC0) * 0x40 + (b1 - 0x80)), rest)
      else none
    else none
  | [] => none

/-- Continuation of a three-byte UTF-8 sequence whose lead byte is `b`. -/
def utf8DecodeTail2 (b : Nat) : List Nat → Option (Char × List Nat)
  | b1 :: b2 :: rest =>
    if (0x80 ≤ b1 ∧ b1 < 0xC0) ∧ (0x80 ≤ b2 ∧ b2 < 0xC0) then
      if 0x800 ≤ (b - 0xE0) * 0x1000 + (b1 - 0x80) * 0x40 + (b2 - 0x80) then
        some (Char.ofNat ((b - 0xE0) * 0x1000 + (b1 - 0x80) * 0x40
          + (b2 - 0x80)), rest)
      else none
    else none
  | _ => none

/-- Continuation of a four-byte UTF-8 sequence whose lead byte is `b`. -/
def utf8DecodeTail3 (b : Nat) : List Nat → Option (Char × List Nat)
  | b1 :: b2 :: b3 :: rest =>
    if (0x80 ≤ b1 ∧ b1 < 0xC0) ∧ (0x80 ≤ b2 ∧ b2 < 0xC0) ∧
        (0x80 ≤ b3 ∧ b3 < 0xC0) then
      if 0x10000 ≤ (b - 0xF0) * 0x40000 + (b1 - 0x80) * 0x1000
          + (b2 - 0x80) * 0x40 + (b3 - 0x80) ∧
          (b - 0xF0) * 0x40000 + (b1 - 0x80) * 0x1000
          + (b2 - 0x80) * 0x40 + (b3 - 0x80) < 0x110000 then
        some (Char.ofNat ((b - 0xF0) * 0x40000 + (b1 - 0x80) * 0x1000
          + (b2 - 0x80) * 0x40 + (b3 - 0x80)), rest)
      else none
    else none
  | _ => none

/-- Decode one UTF-8-encoded Unicode scalar value at the head of a byte
sequence, returning it with the remaining bytes; `none` on malformed or
empty input. -/
def utf8DecodeOne : List Nat → Option (Char × List Nat)
  | [] => none
  | b :: rest =>
    if b < 0x80 then some (Char.ofNat b, rest)
    else if b < 0xC0 then none
    else if b < 0xE0 then utf8DecodeTail1 b rest
    else if b < 0xF0 then utf8DecodeTail2 b rest
    else if b < 0xF8 then utf8DecodeTail3 b rest
    else none

/-- Fuel-driven loop decoding scalar values until the input is empty. -/
def utf8DecodeLoop : Nat → List Nat → Option (List Char)
  | _, [] => some []
  | 0, _ :: _ => none
  | fuel + 1, b :: rest =>
    match utf8DecodeOne (b :: rest) with
    | none => none
    | some (c, rest1) => (utf8DecodeLoop fuel rest1).map (c :: ·)

/-- Decode a UTF-8 byte sequence back into a list of Unicode scalar
values; `none` on malformed input.  Each decoding step consumes at least
one byte, so the length of the input is enough fuel. -/
def utf8Decode (l : List Nat) : Option (List Char) :=
  utf8DecodeLoop l.length l

theorem hexEncode_cons (b : Nat) (bs : List Nat) :
    hexEncode (b :: bs) = byteToHex b ++ hexEncode bs := rfl

theorem hexEncode_length (bs : List Nat) : (hexEncode bs).length = 2 * bs.length := by
  induction bs with
  | nil => rfl
  | cons b tl ih =>
    rw [hexEncode_cons, List.length_append, ih, List.length_cons]
    simp [byteToHex]
    omega

theorem hexCase_length (u : Bool) (bs : List Nat) :
    (hexCase u bs).length = 2 * bs.length := by
  cases u <;> simp [hexCase, hexEncode_length]

/-- Unfolded form of `string_to_hex`: the cased hex string followed by
`max(padding - 2 * byte_length, 0)` zero characters. -/
theorem string_to_hex_eq (s : List Char) (p : Int) (u : Bool) :
    string_to_hex s p u = hexCase u (utf8Encode s) ++
      List.replicate (p - 2 * ((utf8Encode s).length : Int)).toNat '0' := by
  simp [string_to_hex, hexCase_length]

theorem string_to_hex_take (s : List Char) (p : Int) (u : Bool) :
    (string_to_hex s p u).take (2 * (utf8Encode s).length)
      = hexCase u (utf8Encode s) := by
  rw [string_to_hex_eq, ← hexCase_length u (utf8Encode s), List.take_left]

theorem string_to_hex_drop (s : List Char) (p : Int) (u : Bool) :
    (string_to_hex s p u).drop (2 * (utf8Encode s).length)
      = List.replicate (p - 2 * ((utf8Encode s).length : Int)).toNat '0' := by
  rw [string_to_hex_eq, ← hexCase_length u (utf8Encode s), List.drop_left]

/-- C1: for every input string, padding and case flag, the first
`2 * byte_length` characters of the output are exactly the cased hex
encoding of the UTF-8 bytes, and every character after that is `'0'`
(padding is appended only, never prepended, never overwriting hex). -/
theorem hex_prefix_and_zero_pad (s : List Char) (padding : Int) (u : Bool) :
    (string_to_hex s padding u).take (2 * (utf8Encode s).length)
        = hexCase u (utf8Encode s) ∧
      ∀ c ∈ (string_to_hex s padding u).drop (2 * (utf8Encode s).length),
        c = '0' := by
  refine ⟨string_to_hex_take s padding u, ?_⟩
  rw [string_to_hex_drop]
  intro c hc
  exact List.eq_of_mem_replicate hc

/-- Witness for C1 at a concrete input. -/
theorem hex_prefix_and_zero_pad_witness :
    (string_to_hex "A".data 4 true).take (2 * (utf8Encode "A".data).length)
        = hexCase true (utf8Encode "A".data) ∧ '0' = '0' :=
  ⟨(hex_prefix_and_zero_pad "A".data 4 true).1,
   (hex_prefix_and_zero_pad "A".data 4 true).2 '0' (by decide)⟩

/-- C2: for padding ≥ 0, the output length is
`max (2 * byte_length) padding`. -/
theorem length_eq_max_of_nonneg (s : List Char) (padding : Int)
    (_h : 0 ≤ padding) :
    ((string_to_hex s padding true).length : Int)
      = max (2 * ((utf8Encode s).length : Int)) padding := by
  rw [string_to_hex_eq]
  rw [List.length_append, List.length_replicate, hexCase_length]
  omega

/-- Witness for C2 at a concrete input. -/
theorem length_eq_max_of_nonneg_witness :
    ((string_to_hex "A".data 5 true).length : Int)
      = max (2 * ((utf8Encode "A".data).length : Int)) 5 :=
  length_eq_max_of_nonneg "A".data 5 (by decide)

/-- C3: when `padding ≤ 2 * byte_length` (including zero and negative
padding) the function appends nothing and returns the bare hex string;
no error is possible. -/
theorem bare_hex_when_padding_small (s : List Char) (padding : Int) (u : Bool)
    (h : padding ≤ 2 * ((utf8Encode s).length : Int)) :
    string_to_hex s padding u = hexCase u (utf8Encode s) := by
  rw [string_to_hex_eq]
  have hz : (padding - 2 * ((utf8Encode s).length : Int)).toNat = 0 := by omega
  rw [hz]
  simp

/-- Witness for C3 at a concrete input with negative padding. -/
theorem bare_hex_when_padding_small_witness :
    string_to_hex "A".data (-3) false = hexCase false (utf8Encode "A".data) :=
  bare_hex_when_padding_small "A".data (-3) false (by decide)

/-- C5: the uppercase output is exactly the character-wise uppercase image
of the lowercase output; the `'0'` pad characters are case-invariant. -/
theorem uppercase_eq_map_upper (s : List Char) (padding : Int) :
    string_to_hex s padding true
      = (string_to_hex s padding false).map pyToUpper := by
  rw [string_to_hex_eq, string_to_hex_eq, List.map_append, List.map_replicate]
  have h0 : pyToUpper '0' = '0' := by decide
  rw [h0]
  rfl

/-- C10: the output for a smaller padding is always a prefix of the output
for a larger padding, for the same string and case flag. -/
theorem padding_monotone (s : List Char) (u : Bool) (p q : Int) (h : p ≤ q) :
    string_to_hex s p u <+: string_to_hex s q u := by
  rw [string_to_hex_eq, string_to_hex_eq]
  refine ⟨List.replicate ((q - 2 * ((utf8Encode s).length : Int)).toNat
    - (p - 2 * ((utf8Encode s).length : Int)).toNat) '0', ?_⟩
  rw [List.append_assoc, ← List.replicate_add]
  congr 2
  omega

/-- Witness for C10 at concrete paddings. -/
theorem padding_monotone_witness :
    string_to_hex "A".data 1 true <+: string_to_hex "A".data 3 true :=
  padding_monotone "A".data true 1 3 (by decide)

theorem char_toNat_lt (c : Char) : c.toNat < 0x110000 := by
  rcases c.valid with h | ⟨_, h2⟩
  · exact Nat.lt_trans h (by norm_num)
  · exact h2

theorem utf8EncodeChar_lt (c : Char) : ∀ b ∈ utf8EncodeChar c, b < 256 := by
  have hlt : c.toNat < 0x110000 := char_toNat_lt c
  intro b hb
  simp only [utf8EncodeChar] at hb
  split at hb
  · simp at hb; omega
  · split at hb
    · simp at hb; rcases hb with rfl | rfl <;> omega
    · split at hb
      · simp at hb; rcases hb with rfl | rfl | rfl <;> omega
      · simp at hb; rcases hb with rfl | rfl | rfl | rfl <;> omega

theorem utf8Encode_lt (s : List Char) : ∀ b ∈ utf8Encode s, b < 256 := by
  intro b hb
  obtain ⟨c, _, hc⟩ := List.mem_flatMap.mp hb
  exact utf8EncodeChar_lt c b hc

theorem mem_hexEncode (bs : List Nat) (hbs : ∀ b ∈ bs, b < 256) :
    ∀ c ∈ hexEncode bs, ∃ m, m < 16 ∧ c = hexDigit m := by
  intro c hc
  obtain ⟨b, hb, hcb⟩ := List.mem_flatMap.mp hc
  have hb256 := hbs b hb
  simp only [byteToHex, List.mem_cons, List.not_mem_nil, or_false] at hcb
  rcases hcb with rfl | rfl
  · exact ⟨b / 16, by omega, rfl⟩
  · exact ⟨b % 16, by omega, rfl⟩

theorem upper_hexDigit_not_lower :
    ∀ m, m < 16 →
      ¬('a' ≤ pyToUpper (hexDigit m) ∧ pyToUpper (hexDigit m) ≤ 'f') := by
  decide

/-- C6: the uppercase output contains no character in the range
`'a'`–`'f'`: all alphabetic hex digits appear uppercase. -/
theorem no_lowercase_hex_digits (s : List Char) (padding : Int) :
    ∀ c ∈ string_to_hex s padding true, ¬('a' ≤ c ∧ c ≤ 'f') := by
  intro c hc
  rw [string_to_hex_eq] at hc
  rcases List.mem_append.mp hc with h | h
  · simp only [hexCase, if_pos, List.mem_map] at h
    obtain ⟨d, hd, rfl⟩ := h
    obtain ⟨m, hm, rfl⟩ := mem_hexEncode (utf8Encode s) (utf8Encode_lt s) d hd
    exact upper_hexDigit_not_lower m hm
  · rw [List.eq_of_mem_replicate h]
    decide

/-- Witness for C6: `'6'` is a character of `string_to_hex "l" 0 true`. -/
theorem no_lowercase_hex_digits_witness : ¬('a' ≤ '6' ∧ '6' ≤ 'f') :=
  no_lowercase_hex_digits "l".data 0 '6' (by decide)

/-- C9 counterexample: with `--no-uppercase`, the printed python snippet
(which always applies `.upper()`) does not evaluate to the printed result.
Input string `"l"`, padding 2: the snippet gives `"6C"`, the result is
`"6c"`. -/
theorem python_snippet_mismatch :
    pySnippetValue "l".data 2 ≠ string_to_hex "l".data 2 false := by
  decide

/-- C9 amended: for invocations selecting uppercase (the default) and a
non-negative padding, the python-format snippet expression evaluates to
exactly the computed result printed on the `# Result:` line. -/
theorem python_snippet_eq_result_uppercase (s : List Char) (p : Nat) :
    pySnippetValue s p = string_to_hex s (p : Int) true := by
  rw [string_to_hex_eq]
  have hcase : hexCase true (utf8Encode s)
      = (hexEncode (utf8Encode s)).map pyToUpper := rfl
  simp only [pySnippetValue, hcase]
  congr 1
  rw [List.length_map, hexEncode_length]
  congr 1
  omega

/-- C8 counterexample: the claimed output string for
`string_to_hex("Hello World", 32, false)` has only 30 characters (8 pad
zeros), but the function pads to length 32. -/
theorem hello_world_literal_mismatch :
    string_to_hex "Hello World".data 32 false
      ≠ "48656c6c6f20576f726c6400000000".data := by
  decide

/-- C8 amended: `string_to_hex("Hello World", 32, false)` is the 22
lowercase hex characters `48656c6c6f20576f726c64` followed by 10 `'0'`
characters, total length 32. -/
theorem hello_world_scenario :
    string_to_hex "Hello World".data 32 false
      = "48656c6c6f20576f726c640000000000".data := by
  decide

theorem hexDigitVal_hexDigit : ∀ m, m < 16 → hexDigitVal (hexDigit m) = some m := by
  decide

theorem hexDigitVal_upper_hexDigit :
    ∀ m, m < 16 → hexDigitVal (pyToUpper (hexDigit m)) = some m := by
  decide

theorem hexDecode_cons2 (c1 c2 : Char) (rest : List Char) (h l : Nat)
    (h1 : hexDigitVal c1 = some h) (h2 : hexDigitVal c2 = some l) :
    hexDecode (c1 :: c2 :: rest) = (hexDecode rest).map ((16 * h + l) :: ·) := by
  simp only [hexDecode, h1, h2, Option.bind_some, Option.bind_eq_bind]
  cases hexDecode rest <;> rfl

/-- Decoding the (possibly uppercased) hex encoding of a byte sequence
recovers the bytes. -/
theorem hexDecode_hexCase (u : Bool) (bs : List Nat)
    (hbs : ∀ b ∈ bs, b < 256) : hexDecode (hexCase u bs) = some bs := by
  induction bs with
  | nil => cases u <;> rfl
  | cons b tl ih =>
    have hb : b < 256 := hbs b (List.mem_cons_self b tl)
    have htl : ∀ x ∈ tl, x < 256 := fun x hx => hbs x (List.mem_cons_of_mem b hx)
    have hcons : hexCase u (b :: tl)
        = (if u then pyToUpper (hexDigit (b / 16)) else hexDigit (b / 16))
          :: (if u then pyToUpper (hexDigit (b % 16)) else hexDigit (b % 16))
          :: hexCase u tl := by
      cases u <;> simp [hexCase, hexEncode_cons, byteToHex]
    rw [hcons]
    have hd1 : hexDigitVal
        (if u then pyToUpper (hexDigit (b / 16)) else hexDigit (b / 16))
        = some (b / 16) := by
      cases u
      · simpa using hexDigitVal_hexDigit (b / 16) (by omega)
      · simpa using hexDigitVal_upper_hexDigit (b / 16) (by omega)
    have hd2 : hexDigitVal
        (if u then pyToUpper (hexDigit (b % 16)) else hexDigit (b % 16))
        = some (b % 16) := by
      cases u
      · simpa using hexDigitVal_hexDigit (b % 16) (by omega)
      · simpa using hexDigitVal_upper_hexDigit (b % 16) (by omega)
    rw [hexDecode_cons2 _ _ _ (b / 16) (b % 16) hd1 hd2, ih htl]
    have hdm : 16 * (b / 16) + b % 16 = b := by omega
    simp [hdm]

/-- Decoding one step at the head of `utf8EncodeChar c ++ rest` yields
`c` and leaves `rest`. -/
theorem utf8DecodeOne_encodeChar (c : Char) (rest : List Nat) :
    utf8DecodeOne (utf8EncodeChar c ++ rest) = some (c, rest) := by
  have hlt : c.toNat < 0x110000 := char_toNat_lt c
  simp only [utf8EncodeChar]
  by_cases h1 : c.toNat < 0x80
  · rw [if_pos h1]
    simp only [List.cons_append, List.nil_append, utf8DecodeOne, h1, if_pos,
      Char.ofNat_toNat]
  · rw [if_neg h1]
    by_cases h2 : c.toNat < 0x800
    · rw [if_pos h2]
      have e1 : ¬(0xC0 + c.toNat / 0x40 < 0x80) := by omega
      have e2 : ¬(0xC0 + c.toNat / 0x40 < 0xC0) := by omega
      have e3 : 0xC0 + c.toNat / 0x40 < 0xE0 := by omega
      have e4 : 0x80 ≤ 0x80 + c.toNat % 0x40 := by omega
      have e5 : 0x80 + c.toNat % 0x40 < 0xC0 := by omega
      have harith : (0xC0 + c.toNat / 0x40 - 0xC0) * 0x40
          + (0x80 + c.toNat % 0x40 - 0x80) = c.toNat := by omega
      have e6 : 0x80 ≤ c.toNat := by omega
      simp only [List.cons_append, List.nil_append, utf8DecodeOne,
        utf8DecodeTail1, e1, e2, e3, e4, e5, harith, e6, if_pos, if_neg,
        not_false_eq_true, and_self, if_true, if_false, ite_true, ite_false,
        Char.ofNat_toNat]
    · rw [if_neg h2]
      by_cases h3 : c.toNat < 0x10000
      · rw [if_pos h3]
        have e1 : ¬(0xE0 + c.toNat / 0x1000 < 0x80) := by omega
        have e2 : ¬(0xE0 + c.toNat / 0x1000 < 0xC0) := by omega
        have e3 : ¬(0xE0 + c.toNat / 0x1000 < 0xE0) := by omega
        have e4 : 0xE0 + c.toNat / 0x1000 < 0xF0 := by omega
        have e5 : 0x80 ≤ 0x80 + c.toNat / 0x40 % 0x40 := by omega
        have e6 : 0x80 + c.toNat / 0x40 % 0x40 < 0xC0 := by omega
        have e7 : 0x80 ≤ 0x80 + c.toNat % 0x40 := by omega
        have e8 : 0x80 + c.toNat % 0x40 < 0xC0 := by omega
        have harith : (0xE0 + c.toNat / 0x1000 - 0xE0) * 0x1000
            + (0x80 + c.toNat / 0x40 % 0x40 - 0x80) * 0x40
            + (0x80 + c.toNat % 0x40 - 0x80) = c.toNat := by omega
        have e9 : 0x800 ≤ c.toNat := by omega
        simp only [List.cons_append, List.nil_append, utf8DecodeOne,
          utf8DecodeTail2, e1, e2, e3, e4, e5, e6, e7, e8, harith, e9,
          if_pos, if_neg, not_false_eq_true, and_self, if_true, if_false,
          ite_true, ite_false, Char.ofNat_toNat]
      · rw [if_neg h3]
        have e1 : ¬(0xF0 + c.toNat / 0x40000 < 0x80) := by omega
        have e2 : ¬(0xF0 + c.toNat / 0x40000 < 0xC0) := by omega
        have e3 : ¬(0xF0 + c.toNat / 0x40000 < 0xE0) := by omega
        have e4 : ¬(0xF0 + c.toNat / 0x40000 < 0xF0) := by omega
        have e5 : 0xF0 + c.toNat / 0x40000 < 0xF8 := by omega
        have e6 : 0x80 ≤ 0x80 + c.toNat / 0x1000 % 0x40 := by omega
        have e7 : 0x80 + c.toNat / 0x1000 % 0x40 < 0xC0 := by omega
        have e8 : 0x80 ≤ 0x80 + c.toNat / 0x40 % 0x40 := by omega
        have e9 : 0x80 + c.toNat / 0x40 % 0x40 < 0xC0 := by omega
        have e10 : 0x80 ≤ 0x80 + c.toNat % 0x40 := by omega
        have e11 : 0x80 + c.toNat % 0x40 < 0xC0 := by omega
        have harith : (0xF0 + c.toNat / 0x40000 - 0xF0) * 0x40000
            + (0x80 + c.toNat / 0x1000 % 0x40 - 0x80) * 0x1000
            + (0x80 + c.toNat / 0x40 % 0x40 - 0x80) * 0x40
            + (0x80 + c.toNat % 0x40 - 0x80) = c.toNat := by omega
        have e12 : 0x10000 ≤ c.toNat := by omega
        simp only [List.cons_append, List.nil_append, utf8DecodeOne,
          utf8DecodeTail3, e1, e2, e3, e4, e5, e6, e7, e8, e9, e10, e11,
          harith, e12, hlt, if_pos, if_neg, not_false_eq_true, and_self,
          if_true, if_false, ite_true, ite_false, Char.ofNat_toNat]

theorem utf8EncodeChar_ne_nil (c : Char) : utf8EncodeChar c ≠ [] := by
  simp only [utf8EncodeChar]
  split
  · simp
  · split
    · simp
    · split <;> simp

/-- With enough fuel, the decode loop inverts the encoder. -/
theorem utf8DecodeLoop_encode (s : List Char) :
    ∀ fuel, (utf8Encode s).length ≤ fuel →
      utf8DecodeLoop fuel (utf8Encode s) = some s := by
  induction s with
  | nil =>
    intro fuel _
    cases fuel <;> rfl
  | cons c tl ih =>
    intro fuel hf
    have henc : utf8Encode (c :: tl) = utf8EncodeChar c ++ utf8Encode tl := by
      simp [utf8Encode]
    rw [henc] at hf ⊢
    obtain ⟨b, bs, hb⟩ : ∃ b bs, utf8EncodeChar c = b :: bs := by
      cases hc : utf8EncodeChar c with
      | nil => exact absurd hc (utf8EncodeChar_ne_nil c)
      | cons b bs => exact ⟨b, bs, rfl⟩
    have hlen : 1 + (utf8Encode tl).length ≤ fuel := by
      rw [List.length_append, hb] at hf
      simp only [List.length_cons] at hf
      omega
    rcases fuel with _ | f
    · omega
    · have hone : utf8DecodeOne (b :: (bs ++ utf8Encode tl))
          = some (c, utf8Encode tl) := by
        have h := utf8DecodeOne_encodeChar c (utf8Encode tl)
        rw [hb, List.cons_append] at h
        exact h
      rw [hb, List.cons_append]
      simp only [utf8DecodeLoop, hone]
      rw [ih f (by omega)]
      rfl

/-- UTF-8 decoding inverts UTF-8 encoding. -/
theorem utf8Decode_utf8Encode (s : List Char) :
    utf8Decode (utf8Encode s) = some s :=
  utf8DecodeLoop_encode s (utf8Encode s).length le_rfl

/-- C4: round-trip — taking the first `2 * byte_length` characters of the
output, decoding them as hex, and decoding those bytes as UTF-8
reconstructs the input string exactly, for every padding and case flag. -/
theorem round_trip (s : List Char) (p : Int) (u : Bool) :
    (hexDecode ((string_to_hex s p u).take
      (2 * (utf8Encode s).length))).bind utf8Decode = some s := by
  rw [string_to_hex_take, hexDecode_hexCase u (utf8Encode s) (utf8Encode_lt s)]
  rw [Option.some_bind]
  exact utf8Decode_utf8Encode s

/-- C7: worked scenario for `"USDC.axl"` with padding 40, uppercase. -/
theorem usdc_axl_scenario :
    string_to_hex "USDC.axl".data 40 true
      = "555344432E61786C000000000000000000000000".data := by
  decide
